import Mathlib

/-!
Shallow embedding of the mining-pool worker identity and share-accounting
engine (`modules/miningpool/worker.go`).  Go pointers become `Option`,
`float64` difficulties become `ℚ`, `uint64` counters become `Nat` (none of
the claims involve overflow behaviour), and `time.Time` becomes `Int`.
Collaborator types whose Go sources are not part of the repository snapshot
(Shift, Session, Client, Dispatcher, the pool's dependency providers) are
modelled from the specification; each such definition says so in its doc
comment.  Everything defined from `worker.go` follows that file line by line.
-/

namespace MiningPool

/-- Modelled from the spec: a Shift is a single accounting window with
share/invalid/stale counters, a cumulative-difficulty running sum and a
last-share timestamp (`shift.go` is not in the snapshot). -/
structure Shift where
  shares : Nat
  invalid : Nat
  stale : Nat
  cumulativeDifficulty : ℚ
  lastShareTime : Int
deriving Repr, DecidableEq

/-- Modelled from the spec: `Shift.IncrementShares` bumps the exact share
counter by one. -/
def Shift.IncrementShares (sh : Shift) : Shift :=
  { sh with shares := sh.shares + 1 }

/-- Modelled from the spec: `Shift.IncrementInvalid` bumps the invalid-share
counter by one. -/
def Shift.IncrementInvalid (sh : Shift) : Shift :=
  { sh with invalid := sh.invalid + 1 }

/-- Modelled from the spec: `Shift.IncrementStale` bumps the stale-share
counter by one. -/
def Shift.IncrementStale (sh : Shift) : Shift :=
  { sh with stale := sh.stale + 1 }

/-- Modelled from the spec: `Shift.IncrementCumulativeDifficulty` adds a
difficulty contribution to the running sum. -/
def Shift.IncrementCumulativeDifficulty (sh : Shift) (d : ℚ) : Shift :=
  { sh with cumulativeDifficulty := sh.cumulativeDifficulty + d }

/-- Modelled from the spec: `Shift.SetLastShareTime`. -/
def Shift.SetLastShareTime (sh : Shift) (t : Int) : Shift :=
  { sh with lastShareTime := t }

/-- Modelled from the spec: a Client is an account with a name and a
name→Worker mapping (`client.go` is not in the snapshot); we track the set of
worker names that currently have an in-memory instance, which is all that
`newWorker`'s `c.Worker(name) != nil` check observes. -/
structure Client where
  name : String
  workerNames : List String
deriving Repr, DecidableEq

/-- Modelled from the spec: `Client.Worker(name)` returns the instance or
absent; we return the name when an instance exists. -/
def Client.Worker (c : Client) (n : String) : Option String :=
  if c.workerNames.contains n then some n else none

/-- Modelled from the spec: a Session is the live accounting context of one
connection (`session.go` is not in the snapshot).  It owns the current Shift;
for the Dispatcher scan in `CurrentDifficulty` it also carries the bound
client (a nil-able pointer), the bound current worker (a nil-able pointer, of
which the scan only reads `Name()`, so we store the name) and the live
session difficulty returned by `Session.CurrentDifficulty()`. -/
structure Session where
  shift : Shift
  client : Option Client
  currentWorker : Option String
  currentDifficulty : ℚ
deriving Repr, DecidableEq

/-- Modelled from the spec: a Dispatcher handler carries the per-connection
session state `h.s` read by the `CurrentDifficulty` scan. -/
structure Handler where
  s : Session
deriving Repr, DecidableEq

/-- Modelled from the spec: the Dispatcher's registry of live handlers,
behind one coarse lock; the scan iterates over all of them. -/
structure Dispatcher where
  handlers : List Handler
deriving Repr, DecidableEq

/-- A filesystem-setup call made by `newWorker`, recorded so that theorems
can state which persistence-setup operations ran. -/
inductive FsOp where
  | mkdirAll (path : String)
  | newLogger (path : String)
deriving Repr, DecidableEq

/-- Modelled from the spec: the pool-wide services `newWorker` and
`CurrentDifficulty` reach through `c.Pool()` / `parent.Pool()`: the ID
generator's next fresh id, the persistence directory, the dependency
providers `mkdirAll : path → ok | IOError` and `newLogger : path → handle |
IOError`, and the Dispatcher. -/
structure Pool where
  newStratumID : Nat
  persistDir : String
  mkdirAll : String → Option String
  newLogger : String → Except String String
  dispatcher : Dispatcher

/-- Embeds `WorkerRecord` from `worker.go`: the persisted per-worker record. -/
structure WorkerRecord where
  workerID : Nat
  name : String
  averageDifficulty : ℚ
  blocksFound : Nat
  parent : Option Client
deriving Repr, DecidableEq

/-- Embeds `Worker` from `worker.go`: record, nil-able session pointer, nil-able
logger handle (we keep the logger's path as the handle). -/
structure Worker where
  wr : WorkerRecord
  s : Option Session
  log : Option String
deriving Repr, DecidableEq

/-- The directory `newWorker` creates: `filepath.Join(persistDir, "clients",
c.Name())`. -/
def workerDir (p : Pool) (c : Client) : String :=
  p.persistDir ++ "/clients/" ++ c.name

/-- The log path `newWorker` hands to `newLogger`:
`filepath.Join(dirname, name + ".log")`. -/
def workerLogPath (p : Pool) (c : Client) (name : String) : String :=
  workerDir p c ++ "/" ++ name ++ ".log"

/-- The worker value `newWorker` builds before the persistence-setup branch:
fresh id from the ID generator, the given name, the parent client, the given
session, no logger yet. -/
def freshWorker (p : Pool) (c : Client) (name : String) (s : Option Session) : Worker :=
  { wr := { workerID := p.newStratumID, name := name, averageDifficulty := 0,
            blocksFound := 0, parent := some c },
    s := s, log := none }

/-- Embeds `newWorker` from `worker.go`.  Returns Go's `(*Worker, error)` pair
together with the list of filesystem-setup calls performed.  The pool is
passed explicitly (Go reaches it via `c.Pool()`). -/
def newWorker (p : Pool) (c : Client) (name : String) (s : Option Session) :
    (Option Worker × Option String) × List FsOp :=
  let w := freshWorker p c name s
  if (c.Worker name).isSome then
    ((some w, none), [])
  else
    let dirname := workerDir p c
    match p.mkdirAll dirname with
    | some err => ((none, some err), [FsOp.mkdirAll dirname])
    | none =>
      let logpath := workerLogPath p c name
      match p.newLogger logpath with
      | Except.error err =>
          ((some w, some err), [FsOp.mkdirAll dirname, FsOp.newLogger logpath])
      | Except.ok l =>
          ((some { w with log := some l }, none),
           [FsOp.mkdirAll dirname, FsOp.newLogger logpath])

/-- Embeds `Worker.Name` from `worker.go`. -/
def Worker.Name (w : Worker) : String :=
  w.wr.name

/-- Embeds `Worker.SetName` from `worker.go`. -/
def Worker.SetName (w : Worker) (n : String) : Worker :=
  { w with wr := { w.wr with name := n } }

/-- Embeds `Worker.Parent` from `worker.go`. -/
def Worker.Parent (w : Worker) : Option Client :=
  w.wr.parent

/-- Embeds `Worker.SetParent` from `worker.go`. -/
def Worker.SetParent (w : Worker) (p : Option Client) : Worker :=
  { w with wr := { w.wr with parent := p } }

/-- Embeds `Worker.Session` from `worker.go`. -/
def Worker.Session (w : Worker) : Option MiningPool.Session :=
  w.s

/-- Embeds `Worker.SetSession` from `worker.go`. -/
def Worker.SetSession (w : Worker) (s : Option MiningPool.Session) : Worker :=
  { w with s := s }

/-- Embeds `Worker.Online` from `worker.go`: `w.s != nil`. -/
def Worker.Online (w : Worker) : Bool :=
  w.s.isSome

/-- Embeds `Worker.SharesThisBlock` from `worker.go`: `w.s.Shift().Shares()`; `none`
is the nil-pointer dereference of an unbound session. -/
def Worker.SharesThisBlock (w : Worker) : Option Nat :=
  w.s.map fun sess => sess.shift.shares

/-- Embeds `Worker.IncrementShares` from `worker.go`: `w.s.Shift().IncrementShares()`
then `w.s.Shift().IncrementCumulativeDifficulty(currentDifficulty)`. -/
def Worker.IncrementShares (w : Worker) (currentDifficulty : ℚ) : Option Worker :=
  match w.s with
  | none => none
  | some sess =>
      some { w with s := some { sess with
        shift := (sess.shift.IncrementShares).IncrementCumulativeDifficulty currentDifficulty } }

/-- Embeds `Worker.InvalidShares` from `worker.go`. -/
def Worker.InvalidShares (w : Worker) : Option Nat :=
  w.s.map fun sess => sess.shift.invalid

/-- Embeds `Worker.IncrementInvalidShares` from `worker.go`. -/
def Worker.IncrementInvalidShares (w : Worker) : Option Worker :=
  match w.s with
  | none => none
  | some sess => some { w with s := some { sess with shift := sess.shift.IncrementInvalid } }

/-- Embeds `Worker.StaleShares` from `worker.go`. -/
def Worker.StaleShares (w : Worker) : Option Nat :=
  w.s.map fun sess => sess.shift.stale

/-- Embeds `Worker.IncrementStaleShares` from `worker.go`. -/
def Worker.IncrementStaleShares (w : Worker) : Option Worker :=
  match w.s with
  | none => none
  | some sess => some { w with s := some { sess with shift := sess.shift.IncrementStale } }

/-- Embeds `Worker.SetLastShareTime` from `worker.go`. -/
def Worker.SetLastShareTime (w : Worker) (t : Int) : Option Worker :=
  match w.s with
  | none => none
  | some sess => some { w with s := some { sess with shift := sess.shift.SetLastShareTime t } }

/-- Embeds `Worker.LastShareTime` from `worker.go`. -/
def Worker.LastShareTime (w : Worker) : Option Int :=
  w.s.map fun sess => sess.shift.lastShareTime

/-- Embeds `Worker.CumulativeDifficulty` from `worker.go`. -/
def Worker.CumulativeDifficulty (w : Worker) : Option ℚ :=
  w.s.map fun sess => sess.shift.cumulativeDifficulty

/-- Embeds `Worker.BlocksFound` from `worker.go`. -/
def Worker.BlocksFound (w : Worker) : Nat :=
  w.wr.blocksFound

/-- A Worker together with the journal of worker records written by the
persistence layer, so that `IncrementBlocksFound`'s synchronous write is
observable. -/
structure WorkerState where
  w : Worker
  journal : List WorkerRecord
deriving Repr, DecidableEq

/-- Modelled from the spec: `updateWorkerRecord` performs a best-effort
persistence write carrying the worker record (`accounting.go` is not in the
snapshot); the journal records each written record. -/
def updateWorkerRecord (st : WorkerState) : WorkerState :=
  { st with journal := st.journal ++ [st.w.wr] }

/-- Embeds `Worker.IncrementBlocksFound` from `worker.go`: `w.wr.blocksFound++`
followed by `w.updateWorkerRecord()`. -/
def IncrementBlocksFound (st : WorkerState) : WorkerState :=
  updateWorkerRecord
    { st with w := { st.w with wr := { st.w.wr with blocksFound := st.w.wr.blocksFound + 1 } } }

/-- One step of the `CurrentDifficulty` scan over a handler, from the loop in
`worker.go`: Go's `&&` short-circuits, so `h.s.Client` is tested for nil
first, `h.s.Client.Name()` is compared next, and only then is
`h.s.CurrentWorker.Name()` evaluated — with no nil check, so a nil
`CurrentWorker` at that point is a nil-pointer dereference (`none`). -/
def scanStep (cname wname : String) (acc : Nat × ℚ) (h : Handler) : Option (Nat × ℚ) :=
  match h.s.client with
  | none => some acc
  | some c =>
      if c.name = cname then
        match h.s.currentWorker with
        | none => none
        | some wn =>
            if wn = wname then some (acc.1 + 1, acc.2 + h.s.currentDifficulty) else some acc
      else some acc

/-- The handlers `CurrentDifficulty` counts: bound client non-nil with the
worker's parent-client name, and bound current worker carrying the worker's
name.  Written with the same decision structure as `scanStep`. -/
def handlerMatches (cname wname : String) (h : Handler) : Bool :=
  match h.s.client with
  | none => false
  | some c =>
      if c.name = cname then
        match h.s.currentWorker with
        | none => false
        | some wn => decide (wn = wname)
      else false

/-- The loop of `CurrentDifficulty` over the Dispatcher's handlers, threading
the `(workerCount, currentDiff)` accumulator through `scanStep`; a nil
dereference in any iteration aborts the scan (`none`). -/
def scanHandlers (cname wname : String) : List Handler → Nat × ℚ → Option (Nat × ℚ)
  | [], acc => some acc
  | h :: t, acc =>
      match scanStep cname wname acc h with
      | none => none
      | some acc' => scanHandlers cname wname t acc'

/-- Embeds `Worker.CurrentDifficulty` from `worker.go`: via `w.wr.parent.Pool()` (a
nil parent would be a nil dereference), lock the Dispatcher, scan every
handler accumulating `workerCount` and `currentDiff`, return `0.0` on zero
matches and the average otherwise.  The pool is passed explicitly. -/
def Worker.CurrentDifficulty (w : Worker) (p : Pool) : Option ℚ :=
  match w.wr.parent with
  | none => none
  | some par =>
      match scanHandlers par.name w.wr.name p.dispatcher.handlers (0, (0 : ℚ)) with
      | none => none
      | some (workerCount, currentDiff) =>
          if workerCount = 0 then some 0 else some (currentDiff / (workerCount : ℚ))

/-! ## Sample concrete values used by witness theorems -/

/-- A concrete shift for witnesses. -/
def sampleShift : Shift :=
  { shares := 5, invalid := 2, stale := 1, cumulativeDifficulty := 10, lastShareTime := 100 }

/-- A concrete client for witnesses. -/
def sampleClient : Client :=
  { name := "alice", workerNames := [] }

/-- A concrete session bound to `sampleClient`'s worker `rig1`. -/
def sampleSession : Session :=
  { shift := sampleShift, client := some sampleClient,
    currentWorker := some "rig1", currentDifficulty := 4 }

/-- A concrete worker named `rig1` under `sampleClient`, with a bound
session. -/
def sampleWorker : Worker :=
  { wr := { workerID := 1, name := "rig1", averageDifficulty := 0,
            blocksFound := 0, parent := some sampleClient },
    s := some sampleSession, log := none }

/-- A concrete worker named `rig2` under `sampleClient`, with no bound
session. -/
def sampleWorkerB : Worker :=
  { wr := { workerID := 2, name := "rig2", averageDifficulty := 0,
            blocksFound := 0, parent := some sampleClient },
    s := none, log := none }

/-- A concrete pool whose Dispatcher registry holds one live handler bound to
`sampleClient` and worker name `rig1`. -/
def samplePool : Pool :=
  { newStratumID := 7, persistDir := "sia", mkdirAll := fun _ => none,
    newLogger := fun path => Except.ok path,
    dispatcher := { handlers := [{ s := sampleSession }] } }

/-- A concrete shift with every counter at zero. -/
def sampleShiftZero : Shift :=
  { shares := 0, invalid := 0, stale := 0, cumulativeDifficulty := 0, lastShareTime := 0 }

/-! ## Theorems -/

/-- C6: `Online()` returns true iff a Session is currently bound (the session
reference is non-nil); after `SetSession s` with non-nil `s` it is true, after
`SetSession nil` it is false. -/
theorem online_iff_session_bound (w : Worker) (s : Session) :
    (w.SetSession (some s)).Online = true ∧
    (w.SetSession none).Online = false ∧
    w.Online = w.s.isSome := by
  refine ⟨rfl, rfl, rfl⟩

/-- C7: each getter read immediately after the corresponding setter returns
the value just set, for `Name/SetName`, `Parent/SetParent` and
`Session/SetSession`. -/
theorem setter_getter_roundtrip (w : Worker) (n : String) (p : Option Client)
    (s : Option Session) :
    (w.SetName n).Name = n ∧
    (w.SetParent p).Parent = p ∧
    (w.SetSession s).Session = s := by
  refine ⟨rfl, rfl, rfl⟩

/-- C9: every share-accounting delegator dereferences the worker's session
reference unconditionally: each one succeeds exactly when a session is bound
(`Online` true), and is the nil-dereference failure `none` exactly when it is
not. -/
theorem share_delegators_defined_iff_online (w : Worker) (d : ℚ) (t : Int) :
    (w.SharesThisBlock).isSome = w.Online ∧
    (w.IncrementShares d).isSome = w.Online ∧
    (w.InvalidShares).isSome = w.Online ∧
    (w.IncrementInvalidShares).isSome = w.Online ∧
    (w.StaleShares).isSome = w.Online ∧
    (w.IncrementStaleShares).isSome = w.Online ∧
    (w.LastShareTime).isSome = w.Online ∧
    (w.SetLastShareTime t).isSome = w.Online ∧
    (w.CumulativeDifficulty).isSome = w.Online := by
  cases hs : w.s <;>
    simp [Worker.SharesThisBlock, Worker.IncrementShares, Worker.InvalidShares,
      Worker.IncrementInvalidShares, Worker.StaleShares, Worker.IncrementStaleShares,
      Worker.LastShareTime, Worker.SetLastShareTime, Worker.CumulativeDifficulty,
      Worker.Online, hs]

/-- C4: with a bound session, one `IncrementShares d` call increments the
current shift's share counter by exactly one and its cumulative difficulty by
exactly `d`, leaving the invalid-share and stale-share counters (and the
last-share time) unchanged. -/
theorem incrementShares_updates_shift (w : Worker) (sess : Session) (d : ℚ)
    (hs : w.s = some sess) :
    ∃ sess', w.IncrementShares d = some { w with s := some sess' } ∧
      sess'.shift.shares = sess.shift.shares + 1 ∧
      sess'.shift.cumulativeDifficulty = sess.shift.cumulativeDifficulty + d ∧
      sess'.shift.invalid = sess.shift.invalid ∧
      sess'.shift.stale = sess.shift.stale ∧
      sess'.shift.lastShareTime = sess.shift.lastShareTime := by
  refine ⟨{ sess with shift :=
      (sess.shift.IncrementShares).IncrementCumulativeDifficulty d }, ?_, rfl, rfl, rfl, rfl, rfl⟩
  simp [Worker.IncrementShares, hs]

/-- C4 witness: `IncrementShares` on `sampleWorker` at difficulty `3`. -/
theorem incrementShares_updates_shift_witness :
    ∃ sess', sampleWorker.IncrementShares 3 = some { sampleWorker with s := some sess' } ∧
      sess'.shift.shares = sampleSession.shift.shares + 1 ∧
      sess'.shift.cumulativeDifficulty = sampleSession.shift.cumulativeDifficulty + 3 ∧
      sess'.shift.invalid = sampleSession.shift.invalid ∧
      sess'.shift.stale = sampleSession.shift.stale ∧
      sess'.shift.lastShareTime = sampleSession.shift.lastShareTime :=
  incrementShares_updates_shift sampleWorker sampleSession 3 rfl

/-- C3: `newWorker` performs persistence setup (mkdirAll / newLogger) only
when `client.Worker(name)` is absent; when an instance already exists, a
fresh Worker with a new id is returned with no error and no filesystem call;
and it returns an error exactly when it is the first instance for the pair
and `mkdirAll` or `newLogger` fails. -/
theorem newWorker_persistence_only_first (p : Pool) (c : Client) (name : String)
    (s : Option Session) :
    ((c.Worker name).isSome = true →
      newWorker p c name s = ((some (freshWorker p c name s), none), [])) ∧
    ((newWorker p c name s).2 ≠ [] ↔ c.Worker name = none) ∧
    ((newWorker p c name s).1.2 ≠ none ↔
      (c.Worker name = none ∧
        ((p.mkdirAll (workerDir p c)).isSome = true ∨
          (p.newLogger (workerLogPath p c name)).isOk = false))) := by
  refine ⟨?_, ?_, ?_⟩
  · intro h
    simp [newWorker, h]
  · cases hw : c.Worker name
    · cases hm : p.mkdirAll (workerDir p c)
      · cases hl : p.newLogger (workerLogPath p c name) <;>
          simp [newWorker, hw, hm, hl]
      · simp [newWorker, hw, hm]
    · simp [newWorker, hw]
  · cases hw : c.Worker name
    · cases hm : p.mkdirAll (workerDir p c)
      · cases hl : p.newLogger (workerLogPath p c name) <;>
          simp [newWorker, hw, hm, hl, Except.isOk, Except.toBool]
      · simp [newWorker, hw, hm]
    · simp [newWorker, hw]

/-- Each `IncrementBlocksFound` adds one to the counter and appends one
record to the persistence journal carrying the incremented value. -/
theorem incrementBlocksFound_iterate (M : Nat) (st : WorkerState) :
    (IncrementBlocksFound^[M] st).w.wr.blocksFound = st.w.wr.blocksFound + M ∧
    (IncrementBlocksFound^[M] st).journal.map (fun r => r.blocksFound) =
      st.journal.map (fun r => r.blocksFound) ++
        List.range' (st.w.wr.blocksFound + 1) M := by
  induction M generalizing st with
  | zero => simp
  | succ n ih =>
    rw [Function.iterate_succ_apply]
    have h := ih (IncrementBlocksFound st)
    refine ⟨?_, ?_⟩
    · rw [h.1]
      simp only [IncrementBlocksFound, updateWorkerRecord]
      omega
    · rw [h.2]
      simp only [IncrementBlocksFound, updateWorkerRecord, List.map_append, List.map_cons,
        List.map_nil, List.range'_succ, List.append_assoc, List.cons_append, List.nil_append]

/-- C5: starting from a zero counter, M calls to `IncrementBlocksFound` make
`BlocksFound()` return exactly M, and each call triggers exactly one
persistence write of the worker record, the persisted values being
`1, 2, ..., M` — strictly increasing by one per call. -/
theorem incrementBlocksFound_monotonic (st : WorkerState) (M : Nat)
    (h0 : st.w.BlocksFound = 0) :
    (IncrementBlocksFound^[M] st).w.BlocksFound = M ∧
    (IncrementBlocksFound^[M] st).journal.map (fun r => r.blocksFound) =
      st.journal.map (fun r => r.blocksFound) ++ List.range' 1 M := by
  have hb : st.w.wr.blocksFound = 0 := h0
  have h := incrementBlocksFound_iterate M st
  rw [hb] at h
  exact ⟨by simpa [Worker.BlocksFound] using h.1, h.2⟩

/-- C5 witness: three calls on a fresh worker state persist `[1, 2, 3]` and
leave the counter at 3. -/
theorem incrementBlocksFound_monotonic_witness :
    (IncrementBlocksFound^[3] { w := sampleWorker, journal := [] }).w.BlocksFound = 3 ∧
    (IncrementBlocksFound^[3]
        { w := sampleWorker, journal := [] }).journal.map (fun r => r.blocksFound) =
      (List.map (fun r => r.blocksFound) ([] : List WorkerRecord)) ++ List.range' 1 3 :=
  incrementBlocksFound_monotonic { w := sampleWorker, journal := [] } 3 rfl

/-- The `CurrentDifficulty` scan, when every handler with a non-nil client
also has a non-nil current worker, counts exactly the matching handlers and
sums their live session difficulties. -/
theorem scanHandlers_eq (cname wname : String) (hs : List Handler) :
    ∀ acc : Nat × ℚ, (∀ h ∈ hs, h.s.client ≠ none → h.s.currentWorker ≠ none) →
      scanHandlers cname wname hs acc =
        some (acc.1 + (hs.filter (handlerMatches cname wname)).length,
              acc.2 + ((hs.filter (handlerMatches cname wname)).map
                (fun h => h.s.currentDifficulty)).sum) := by
  induction hs with
  | nil =>
    intro acc _
    simp [scanHandlers]
  | cons h t ih =>
    intro acc hinv
    have hinvt : ∀ x ∈ t, x.s.client ≠ none → x.s.currentWorker ≠ none :=
      fun x hx => hinv x (List.mem_cons_of_mem h hx)
    cases hc : h.s.client with
    | none =>
      simp only [scanHandlers, scanStep, hc]
      rw [ih acc hinvt]
      simp [handlerMatches, List.filter_cons, hc]
    | some c =>
      by_cases hcn : c.name = cname
      · have hcw : h.s.currentWorker ≠ none := by
          refine hinv h (List.mem_cons_self h t) ?_
          simp [hc]
        cases hw : h.s.currentWorker with
        | none => exact absurd hw hcw
        | some wn =>
          by_cases hwn : wn = wname
          · have hmatch : handlerMatches cname wname h = true := by
              simp [handlerMatches, hc, hw, hcn, hwn]
            simp only [scanHandlers, scanStep, hc, hw, if_pos hcn, if_pos hwn]
            rw [ih _ hinvt]
            simp only [List.filter_cons, hmatch, if_true, List.length_cons, List.map_cons,
              List.sum_cons, Option.some.injEq, Prod.mk.injEq]
            exact ⟨by omega, by ring⟩
          · have hmatch : handlerMatches cname wname h = false := by
              simp [handlerMatches, hc, hw, hcn, hwn]
            simp only [scanHandlers, scanStep, hc, hw, if_pos hcn, if_neg hwn]
            rw [ih acc hinvt]
            simp [List.filter_cons, hmatch]
      · have hmatch : handlerMatches cname wname h = false := by
          simp [handlerMatches, hc, hcn]
        simp only [scanHandlers, scanStep, hc, if_neg hcn]
        rw [ih acc hinvt]
        simp [List.filter_cons, hmatch]

/-- C1: when exactly the handlers matching the worker's `(client name, worker
name)` pair are live in the Dispatcher's registry and there is at least one
of them, `CurrentDifficulty` returns the sum of their live session
difficulties divided by their number. -/
theorem currentDifficulty_is_average (w : Worker) (p : Pool) (par : Client)
    (hpar : w.wr.parent = some par)
    (hinv : ∀ h ∈ p.dispatcher.handlers, h.s.client ≠ none → h.s.currentWorker ≠ none)
    (hk : 1 ≤ (p.dispatcher.handlers.filter (handlerMatches par.name w.wr.name)).length) :
    w.CurrentDifficulty p =
      some (((p.dispatcher.handlers.filter (handlerMatches par.name w.wr.name)).map
            (fun h => h.s.currentDifficulty)).sum /
          ((p.dispatcher.handlers.filter (handlerMatches par.name w.wr.name)).length : ℚ)) := by
  have hscan := scanHandlers_eq par.name w.wr.name p.dispatcher.handlers (0, (0 : ℚ)) hinv
  have hlen : ¬((p.dispatcher.handlers.filter
      (handlerMatches par.name w.wr.name)).length = 0) := by omega
  simp only [Worker.CurrentDifficulty, hpar]
  rw [hscan]
  simp only [zero_add]
  rw [if_neg hlen]

/-- C1 witness: one live matching handler at difficulty 4 averages to 4. -/
theorem currentDifficulty_is_average_witness :
    sampleWorker.CurrentDifficulty samplePool = some 4 := by
  have h := currentDifficulty_is_average sampleWorker samplePool sampleClient rfl
    (by decide) (by decide)
  rw [h]
  norm_num [samplePool, sampleSession, sampleClient, sampleWorker, handlerMatches]

/-- C2: when zero live handlers match the worker's `(client name, worker
name)` pair, `CurrentDifficulty` returns exactly `0.0` — a normal value, not
a failure. -/
theorem currentDifficulty_zero_matches (w : Worker) (p : Pool) (par : Client)
    (hpar : w.wr.parent = some par)
    (hinv : ∀ h ∈ p.dispatcher.handlers, h.s.client ≠ none → h.s.currentWorker ≠ none)
    (hzero : p.dispatcher.handlers.filter (handlerMatches par.name w.wr.name) = []) :
    w.CurrentDifficulty p = some 0 := by
  have hscan := scanHandlers_eq par.name w.wr.name p.dispatcher.handlers (0, (0 : ℚ)) hinv
  rw [hzero] at hscan
  simp only [Worker.CurrentDifficulty, hpar]
  rw [hscan]
  simp

/-- C2 witness: a worker named `rig2` matches no live handler and gets 0. -/
theorem currentDifficulty_zero_matches_witness :
    sampleWorkerB.CurrentDifficulty samplePool = some 0 :=
  currentDifficulty_zero_matches sampleWorkerB samplePool sampleClient rfl
    (by decide) (by decide)

/-- C10: the scan checks each handler's client for nil but dereferences the
session's current worker with no nil check; under the invariant that every
registered handler with a non-nil session client also has a non-nil current
worker (and with the worker's parent bound), the nil-dereference failure
branch is unreachable and the scan is well defined. -/
theorem currentDifficulty_scan_welldefined (w : Worker) (p : Pool) (par : Client)
    (hpar : w.wr.parent = some par)
    (hinv : ∀ h ∈ p.dispatcher.handlers, h.s.client ≠ none → h.s.currentWorker ≠ none) :
    (w.CurrentDifficulty p).isSome = true := by
  have hscan := scanHandlers_eq par.name w.wr.name p.dispatcher.handlers (0, (0 : ℚ)) hinv
  simp only [Worker.CurrentDifficulty, hpar]
  rw [hscan]
  simp only [zero_add]
  by_cases h0 : (p.dispatcher.handlers.filter
      (handlerMatches par.name w.wr.name)).length = 0
  · rw [if_pos h0]
    rfl
  · rw [if_neg h0]
    rfl

/-- C10 witness: the scan over `samplePool`'s registry succeeds. -/
theorem currentDifficulty_scan_welldefined_witness :
    (sampleWorker.CurrentDifficulty samplePool).isSome = true :=
  currentDifficulty_scan_welldefined sampleWorker samplePool sampleClient rfl (by decide)

/-- An interleaved execution of concurrent `IncrementShares` callers against
one shared current Shift: the Shift's lock makes each share-counter update
atomic, so a concurrent run is an arbitrary sequential order of the callers'
atomic updates; `ops` lists, in execution order, which caller performed each
one. -/
def runSchedule (n : Nat) (ops : List (Fin n)) (sh : Shift) : Shift :=
  ops.foldl (fun acc _ => acc.IncrementShares) sh

/-- Each atomic update adds exactly one share, whatever the order. -/
theorem runSchedule_shares (n : Nat) (ops : List (Fin n)) (sh : Shift) :
    (runSchedule n ops sh).shares = sh.shares + ops.length := by
  induction ops generalizing sh with
  | nil => simp [runSchedule]
  | cons o t ih =>
    have h := ih sh.IncrementShares
    simp only [runSchedule, List.foldl_cons] at h ⊢
    rw [h]
    simp only [Shift.IncrementShares, List.length_cons]
    omega

/-- A schedule in which each of the `n` callers appears exactly `K` times has
length `n * K`. -/
theorem schedule_length (n K : Nat) (ops : List (Fin n))
    (hcount : ∀ i : Fin n, ops.count i = K) : ops.length = n * K := by
  have hsub : ∑ a ∈ (↑ops : Multiset (Fin n)).toFinset, Multiset.count a ↑ops
      = ∑ a ∈ Finset.univ, Multiset.count a (↑ops : Multiset (Fin n)) :=
    Finset.sum_subset (Finset.subset_univ _) (fun x _ hx =>
      Multiset.count_eq_zero.mpr (fun hm => hx (Multiset.mem_toFinset.mpr hm)))
  have hcard := Multiset.toFinset_sum_count_eq (↑ops : Multiset (Fin n))
  calc ops.length = Multiset.card (↑ops : Multiset (Fin n)) := (Multiset.coe_card ops).symm
    _ = ∑ a ∈ (↑ops : Multiset (Fin n)).toFinset, Multiset.count a ↑ops := hcard.symm
    _ = ∑ a ∈ Finset.univ, Multiset.count a (↑ops : Multiset (Fin n)) := hsub
    _ = ∑ a ∈ (Finset.univ : Finset (Fin n)), K := by
        simp only [Multiset.coe_count]
        exact Finset.sum_congr rfl (fun i _ => hcount i)
    _ = n * K := by simp [Finset.sum_const, Finset.card_univ, smul_eq_mul]

/-- C8: for any interleaving of `n` concurrent callers each performing `K`
atomic `IncrementShares` updates on the same current Shift starting from a
zero share counter, the resulting share counter is exactly `n * K` — no lost
updates. -/
theorem concurrent_increments_no_lost_updates (n K : Nat) (ops : List (Fin n)) (sh : Shift)
    (h0 : sh.shares = 0) (hcount : ∀ i : Fin n, ops.count i = K) :
    (runSchedule n ops sh).shares = n * K := by
  rw [runSchedule_shares, h0, schedule_length n K ops hcount]
  exact Nat.zero_add _

/-- C8 witness: two callers with two increments each, interleaved, produce
four shares. -/
theorem concurrent_increments_no_lost_updates_witness :
    (runSchedule 2 [0, 1, 1, 0] sampleShiftZero).shares = 2 * 2 :=
  concurrent_increments_no_lost_updates 2 2 [0, 1, 1, 0] sampleShiftZero rfl (by decide)

end MiningPool
